import Mathlib

/-!
Verification of the Linkora DEX SDK keeper engine and its constant-product
math library (`Calculator` in `src/utils/Formatter.js`, `KeeperModule` in
`src/modules/KeeperModule.js`, the keeper loop in `src/examples/keeper.js`,
and the `TradingModule` scan helpers).

JavaScript numbers are modelled as exact rationals (`ℚ`);
`Number.prototype.toFixed(n)` followed by re-parsing is modelled as rounding
to `n` fractional decimal digits (`roundTo`).  On-chain integers handled via
JavaScript `BigInt` (ethers v6 results) are modelled as `ℤ`; an expression
whose evaluation throws — in particular the mixed BigInt/Number arithmetic
`TypeError` in the liquidation check — is modelled by an `Option` result.
Fallible remote reads and transaction submissions are modelled as
`Option`-valued fields of a `Ledger` record, `none` standing for a
thrown/reverted call.
-/

namespace LinkoraDex

/-- Rounding a rational to `n` fractional decimal digits: the idealised
semantics of JavaScript's `toFixed(n)` (rendering) followed by `parseFloat`
(re-parsing). -/
def roundTo (n : ℕ) (q : ℚ) : ℚ := (round (q * 10 ^ n) : ℚ) / 10 ^ n

/-- The `Calculator` precision: `CONSTANTS.PRECISION.PRICE_DECIMALS = 6`
from the constants module staged at src/utils/Formatter.js lines 702-804
(the `./utils/constants` module, whose `PRECISION.PRICE_DECIMALS` is
assigned to `this.PRECISION` in the `Calculator` constructor). -/
def CALC_PRECISION : ℕ := 6

/-- The exact (pre-rounding) constant-product output amount computed inside
`Calculator.calculateAmountOut` (src/utils/Formatter.js, lines 526-527). -/
def amountOutVal (amountIn reserveIn reserveOut feePercent : ℚ) : ℚ :=
  let amountInWithFee := amountIn * (1 - feePercent / 100)
  amountInWithFee * reserveOut / (reserveIn + amountInWithFee)

/-- `Calculator.calculateAmountOut` (src/utils/Formatter.js, lines 519-530):
returns `'0'` if either reserve is zero, otherwise the constant-product
output rendered with `toFixed(PRECISION)`. -/
def calculateAmountOut (amountIn reserveIn reserveOut feePercent : ℚ) : ℚ :=
  if reserveIn = 0 ∨ reserveOut = 0 then 0
  else roundTo CALC_PRECISION (amountOutVal amountIn reserveIn reserveOut feePercent)

/-- `Calculator.calculateAmountIn` (src/utils/Formatter.js, lines 532-544):
returns `'0'` if either reserve is zero or `amountOut >= reserveOut`,
otherwise the inverse constant-product formula rendered with
`toFixed(PRECISION)`. -/
def calculateAmountIn (amountOut reserveIn reserveOut feePercent : ℚ) : ℚ :=
  if reserveIn = 0 ∨ reserveOut = 0 ∨ reserveOut ≤ amountOut then 0
  else
    roundTo CALC_PRECISION
      (amountOut * reserveIn / ((reserveOut - amountOut) * (1 - feePercent / 100)))

/-- `Calculator.calculatePriceImpact` (src/utils/Formatter.js, lines 546-563):
simulates the post-trade reserves under `k = reserveIn * reserveOut`,
compares pre/post effective price and returns the percent impact rendered
with `toFixed(2)` and re-parsed. -/
def calculatePriceImpact (reserveIn reserveOut amountIn : ℚ) : ℚ :=
  if reserveIn = 0 ∨ reserveOut = 0 then 0
  else
    let k := reserveIn * reserveOut
    let newReserveIn := reserveIn + amountIn
    let newReserveOut := k / newReserveIn
    let amountOut := reserveOut - newReserveOut
    let priceBefore := reserveOut / reserveIn
    let priceAfter := amountOut / amountIn
    roundTo 2 (|(priceBefore - priceAfter) / priceBefore| * 100)

/-- The amount-out operation exactly as the specification words it
(spec.md §4.1): `amountInWithFee = amountIn * (1 - feePercent/100)`,
result `amountInWithFee * reserveOut / (reserveIn + amountInWithFee)`
rendered at 6 fractional digits, and `0` whenever a reserve is `0`. -/
def amountOutSpec (amountIn reserveIn reserveOut feePercent : ℚ) : ℚ :=
  if reserveIn = 0 ∨ reserveOut = 0 then 0
  else
    roundTo 6 (amountIn * (1 - feePercent / 100) * reserveOut /
      (reserveIn + amountIn * (1 - feePercent / 100)))

/-! ### Liquidation monitor (`KeeperModule.checkLiquidationConditions`,
src/modules/KeeperModule.js lines 172-200)

Positions come back from the contract as raw ethers v6 results, so
`position.positionType`, `position.entryPrice` and the oracle price are
JavaScript `BigInt`s (modelled as `ℤ`).  Two BigInt/Number interactions
shape the semantics: strict equality between a BigInt and a Number is
always false (`0n === 0` is `false`), and mixed BigInt/Number arithmetic
throws a `TypeError` — relational comparisons like `<=` are the only mixed
operations that succeed. -/

structure Position where
  token : ℕ
  entryPrice : ℤ
  positionType : ℤ
  isOpen : Bool
deriving DecidableEq

/-- `position.positionType === 0` in `checkLiquidationConditions`: strict
equality between the BigInt `positionType` and the Number literal `0` is
false for every value, so the computed `isLong` is never true.  (The float
path `formatPositionData` instead compares `Number(position.positionType)`,
which does distinguish Long from Short.) -/
def positionTypeIsLongJs (_positionType : ℤ) : Bool := false

/-- The `pnlPercent` computation of `checkLiquidationConditions`:
for Long, `currentPrice <= entryPrice ? -((entryPrice-currentPrice)*100/entryPrice) : 0`;
mirrored for Short.  The BigInt comparisons succeed, but every branch that
evaluates the arithmetic multiplies a BigInt difference by the Number
literal `100`, which throws a `TypeError` (mixed BigInt/Number arithmetic)
before the division is reached — modelled as `none`.  Only the no-loss
branches produce the Number `0`. -/
def pnlPercentCalc (isLong : Bool) (entryPrice currentPrice : ℤ) : Option ℤ :=
  if isLong then
    if currentPrice ≤ entryPrice then none
    else some 0
  else
    if entryPrice ≤ currentPrice then none
    else some 0

/-- `KeeperModule.checkLiquidationConditions` (lines 172-200): reads the
oracle price (`priceResult`, `none` = the read threw), computes `isLong`
via the always-false BigInt strict equality, computes `pnlPercent`, and
returns `pnlPercent <= -80`.  The surrounding `try/catch` turns any thrown
error (including the `TypeError` above) into the return value `false`. -/
def checkLiquidationConditions (priceResult : Option ℤ) (pos : Position) : Bool :=
  ((priceResult.bind fun currentPrice =>
      (pnlPercentCalc (positionTypeIsLongJs pos.positionType) pos.entryPrice currentPrice).map
        fun pnl => decide (pnl ≤ -80))).getD false

/-- The Long-side loss percent as the spec words it (§4.3):
`(entryPrice - currentPrice) / entryPrice * 100` when `current < entry`,
else `0`. -/
def lossPercentSpecLong (entryPrice currentPrice : ℚ) : ℚ :=
  if currentPrice < entryPrice then (entryPrice - currentPrice) / entryPrice * 100 else 0

/-! ### The keeper engine's ledger interface and call traces

The remote contracts are modelled as a `Ledger` record of read results;
`none` models a call that throws (missing entity, reverted read, RPC
failure).  Every remote interaction a keeper phase performs is recorded as
a `KCall`, so "issues no write calls" claims are statements about traces. -/

structure Order where
  executed : Bool
deriving DecidableEq

structure Ledger where
  isPausedResult : Option Bool
  accessControlStatus : Option Bool
  nextOrderId : Option ℕ
  nextPositionId : Option ℕ
  getOrder : ℕ → Option Order
  shouldExecuteOrder : ℕ → Option Bool
  getPosition : ℕ → Option Position
  getPrice : ℕ → Option ℤ
  executeOrderResult : ℕ → Option Unit
  liquidatePositionResult : ℕ → Option Unit

inductive KCall where
  | readPausedFlag
  | readNextOrderId
  | readNextPositionId
  | readOrder (id : ℕ)
  | readShouldExecute (id : ℕ)
  | readPosition (id : ℕ)
  | readPrice (token : ℕ)
  | writeExecuteOrder (id : ℕ)
  | writeLiquidatePosition (id : ℕ)
  | sleepCooldown
deriving DecidableEq

def KCall.isWrite : KCall → Bool
  | writeExecuteOrder _ => true
  | writeLiquidatePosition _ => true
  | _ => false

inductive OpportunityType where
  | orderExecution
  | positionLiquidation
deriving DecidableEq

/-- The fields of a scan opportunity that the claims are about (the source
also attaches a description string and an estimated-reward formatting
call). -/
structure Opportunity where
  type : OpportunityType
  id : ℕ
  estimatedGas : ℕ
deriving DecidableEq

/-- One iteration of the order loop of `KeeperModule.getKeeperOpportunities`
(src/modules/KeeperModule.js lines 370-384): `safeCall(getOrder, null)`,
skip on `null` or `executed`, then `safeCall(shouldExecuteOrder, false)`,
and emit an `order_execution` opportunity when it returns `true`. -/
def orderOpportunityStep (L : Ledger) (orderId : ℕ) : Option Opportunity × List KCall :=
  match L.getOrder orderId with
  | none => (none, [KCall.readOrder orderId])
  | some order =>
    if order.executed then (none, [KCall.readOrder orderId])
    else if (L.shouldExecuteOrder orderId).getD false then
      (some ⟨OpportunityType.orderExecution, orderId, 300000⟩,
        [KCall.readOrder orderId, KCall.readShouldExecute orderId])
    else (none, [KCall.readOrder orderId, KCall.readShouldExecute orderId])

/-- The per-id test of `KeeperModule.findLiquidatablePositions`: position
present, open, and `checkLiquidationConditions` true. -/
def liqPred (L : Ledger) (id : ℕ) : Bool :=
  match L.getPosition id with
  | none => false
  | some pos => pos.isOpen && checkLiquidationConditions (L.getPrice pos.token) pos

/-- The loop of `KeeperModule.findLiquidatablePositions`
(src/modules/KeeperModule.js lines 402-427):
`for (positionId = 1; positionId <= total && liquidatable.length < 10; positionId++)`.
The guard is checked before each iteration, so enumeration stops as soon as
ten liquidatable positions have been collected. -/
def findLiquidatableLoop (L : Ledger) : List ℕ → List ℕ → List ℕ × List KCall
  | [], acc => (acc, [])
  | id :: rest, acc =>
    if acc.length < 10 then
      match L.getPosition id with
      | none =>
        let r := findLiquidatableLoop L rest acc
        (r.1, KCall.readPosition id :: r.2)
      | some pos =>
        if pos.isOpen then
          let acc' := if checkLiquidationConditions (L.getPrice pos.token) pos
            then acc ++ [id] else acc
          let r := findLiquidatableLoop L rest acc'
          (r.1, KCall.readPosition id :: KCall.readPrice pos.token :: r.2)
        else
          let r := findLiquidatableLoop L rest acc
          (r.1, KCall.readPosition id :: r.2)
    else (acc, [])

/-- `KeeperModule.findLiquidatablePositions`: reads `getNextPositionId`
(`none` = the read threw and the surrounding catch returns the empty
accumulator) and walks ids `1 .. nextPositionId - 1`. -/
def findLiquidatablePositions (L : Ledger) : List ℕ × List KCall :=
  match L.nextPositionId with
  | none => ([], [KCall.readNextPositionId])
  | some n =>
    let r := findLiquidatableLoop L (List.range' 1 (n - 1)) []
    (r.1, KCall.readNextPositionId :: r.2)

/-- `KeeperModule.getKeeperOpportunities` (src/modules/KeeperModule.js
lines 363-400): order-execution opportunities for ids
`1 .. nextOrderId - 1` followed by position-liquidation opportunities from
`findLiquidatablePositions`. -/
def getKeeperOpportunities (L : Ledger) : List Opportunity × List KCall :=
  match L.nextOrderId with
  | none => ([], [KCall.readNextOrderId])
  | some n =>
    let steps := (List.range' 1 (n - 1)).map (orderOpportunityStep L)
    let liq := findLiquidatablePositions L
    (steps.filterMap Prod.fst ++
       liq.1.map (fun pid => ⟨OpportunityType.positionLiquidation, pid, 400000⟩),
     KCall.readNextOrderId :: (steps.flatMap Prod.snd ++ liq.2))

/-- The `shouldLiquidate` flag computed by `KeeperModule.formatPositionData`
(src/modules/KeeperModule.js lines 898-932) over parsed floating-point
values: `pnlPercent <= -80` with exact division (the `formatFromWei`
scaling by `10^18` cancels in the percent ratio). -/
def shouldLiquidateFmt (isLong : Bool) (entryPrice currentPrice : ℚ) : Bool :=
  let pnl := if isLong then (currentPrice - entryPrice) / entryPrice * 100
             else (entryPrice - currentPrice) / entryPrice * 100
  decide (pnl ≤ -80)

/-- The process-lifetime counters of `KeeperModule.stats`. -/
structure KeeperStats where
  ordersExecuted : ℕ
  positionsLiquidated : ℕ
  errors : ℕ
deriving DecidableEq

/-- How `KeeperModule.executeReadyOrders` disposes of one order id:
`alreadyDone` is the `if (order.executed) continue` branch — a successful
no-op attempt on an order another keeper already settled. -/
inductive OrderOutcome where
  | alreadyDone
  | notReady
  | executedOk
  | lookupFailed
  | txFailed
deriving DecidableEq

/-- One iteration of `KeeperModule.executeReadyOrders`
(src/modules/KeeperModule.js lines 91-124): the per-id `try/catch`
increments `stats.errors` on a thrown read or transaction; an executed
order is skipped with no further calls and no counter change; a successful
execution increments `stats.ordersExecuted`. -/
def processOrderId (L : Ledger) (orderId : ℕ) (s : KeeperStats) :
    OrderOutcome × KeeperStats × List KCall :=
  match L.getOrder orderId with
  | none => (OrderOutcome.lookupFailed, {s with errors := s.errors + 1},
      [KCall.readOrder orderId])
  | some order =>
    if order.executed then (OrderOutcome.alreadyDone, s, [KCall.readOrder orderId])
    else
      match L.shouldExecuteOrder orderId with
      | none => (OrderOutcome.lookupFailed, {s with errors := s.errors + 1},
          [KCall.readOrder orderId, KCall.readShouldExecute orderId])
      | some false => (OrderOutcome.notReady, s,
          [KCall.readOrder orderId, KCall.readShouldExecute orderId])
      | some true =>
        match L.executeOrderResult orderId with
        | some _ => (OrderOutcome.executedOk,
            {s with ordersExecuted := s.ordersExecuted + 1},
            [KCall.readOrder orderId, KCall.readShouldExecute orderId,
              KCall.writeExecuteOrder orderId])
        | none => (OrderOutcome.txFailed, {s with errors := s.errors + 1},
            [KCall.readOrder orderId, KCall.readShouldExecute orderId,
              KCall.writeExecuteOrder orderId])

def executeReadyOrdersLoop (L : Ledger) : List ℕ → KeeperStats → KeeperStats × List KCall
  | [], s => (s, [])
  | orderId :: rest, s =>
    let r := processOrderId L orderId s
    let rr := executeReadyOrdersLoop L rest r.2.1
    (rr.1, r.2.2 ++ rr.2)

/-- `KeeperModule.executeReadyOrders`: read `getNextOrderId` and process
ids `1 .. nextOrderId - 1` sequentially. -/
def executeReadyOrders (L : Ledger) (s : KeeperStats) : KeeperStats × List KCall :=
  match L.nextOrderId with
  | none => (s, [KCall.readNextOrderId])
  | some n =>
    let r := executeReadyOrdersLoop L (List.range' 1 (n - 1)) s
    (r.1, KCall.readNextOrderId :: r.2)

inductive PositionOutcome where
  | closedSkip
  | notLiquidatable
  | liquidatedOk
  | lookupFailed
  | txFailed
deriving DecidableEq

/-- One iteration of `KeeperModule.liquidatePositions`
(src/modules/KeeperModule.js lines 138-168): a closed position
(`!position.isOpen`) is skipped with no write and no counter change. -/
def processPositionId (L : Ledger) (positionId : ℕ) (s : KeeperStats) :
    PositionOutcome × KeeperStats × List KCall :=
  match L.getPosition positionId with
  | none => (PositionOutcome.lookupFailed, {s with errors := s.errors + 1},
      [KCall.readPosition positionId])
  | some pos =>
    if !pos.isOpen then (PositionOutcome.closedSkip, s, [KCall.readPosition positionId])
    else if checkLiquidationConditions (L.getPrice pos.token) pos then
      match L.liquidatePositionResult positionId with
      | some _ => (PositionOutcome.liquidatedOk,
          {s with positionsLiquidated := s.positionsLiquidated + 1},
          [KCall.readPosition positionId, KCall.readPrice pos.token,
            KCall.writeLiquidatePosition positionId])
      | none => (PositionOutcome.txFailed, {s with errors := s.errors + 1},
          [KCall.readPosition positionId, KCall.readPrice pos.token,
            KCall.writeLiquidatePosition positionId])
    else (PositionOutcome.notLiquidatable, s,
      [KCall.readPosition positionId, KCall.readPrice pos.token])

def liquidatePositionsLoop (L : Ledger) : List ℕ → KeeperStats → KeeperStats × List KCall
  | [], s => (s, [])
  | positionId :: rest, s =>
    let r := processPositionId L positionId s
    let rr := liquidatePositionsLoop L rest r.2.1
    (rr.1, r.2.2 ++ rr.2)

/-- `KeeperModule.liquidatePositions`: read `getNextPositionId` and process
ids `1 .. nextPositionId - 1` sequentially. -/
def liquidatePositions (L : Ledger) (s : KeeperStats) : KeeperStats × List KCall :=
  match L.nextPositionId with
  | none => (s, [KCall.readNextPositionId])
  | some n =>
    let r := liquidatePositionsLoop L (List.range' 1 (n - 1)) s
    (r.1, KCall.readNextPositionId :: r.2)

/-! ### Concrete ledgers used as witnesses -/

/-- Ten orders where the lookup for id 5 throws (spec.md §8, scanning
resilience example). -/
def exOrderLookup (id : ℕ) : Option Order :=
  if id = 5 then none else some ⟨false⟩

def exLedgerScan : Ledger where
  isPausedResult := some false
  accessControlStatus := none
  nextOrderId := some 11
  nextPositionId := some 1
  getOrder := exOrderLookup
  shouldExecuteOrder := fun _ => some true
  getPosition := fun _ => none
  getPrice := fun _ => none
  executeOrderResult := fun _ => some ()
  liquidatePositionResult := fun _ => some ()

/-- A ledger whose order 1 is already executed and whose position 1 is
closed. -/
def exLedgerDone : Ledger where
  isPausedResult := some false
  accessControlStatus := none
  nextOrderId := some 2
  nextPositionId := some 2
  getOrder := fun _ => some ⟨true⟩
  shouldExecuteOrder := fun _ => some true
  getPosition := fun _ => some ⟨0, 100, 0, false⟩
  getPrice := fun _ => some 10
  executeOrderResult := fun _ => some ()
  liquidatePositionResult := fun _ => some ()

/-- Fifteen open positions (entry 100, current price 10) with
`nextPositionId = 16`, exercising the scan over ids `1 .. 15`. -/
def exLedgerMany : Ledger where
  isPausedResult := some false
  accessControlStatus := none
  nextOrderId := some 1
  nextPositionId := some 16
  getOrder := fun _ => none
  shouldExecuteOrder := fun _ => some false
  getPosition := fun _ => some ⟨0, 100, 0, true⟩
  getPrice := fun _ => some 10
  executeOrderResult := fun _ => some ()
  liquidatePositionResult := fun _ => some ()

/-! ### Generic rounding lemmas -/

theorem roundTo_nonneg {n : ℕ} {q : ℚ} (h : 0 ≤ q) : 0 ≤ roundTo n q := by
  unfold roundTo
  have h1 : (0 : ℤ) ≤ round (q * 10 ^ n) := by
    rw [round_eq]
    positivity
  have h2 : (0 : ℚ) ≤ (round (q * 10 ^ n) : ℚ) := by exact_mod_cast h1
  positivity

theorem roundTo_mono {n : ℕ} {x y : ℚ} (h : x ≤ y) : roundTo n x ≤ roundTo n y := by
  unfold roundTo
  have h1 : round (x * 10 ^ n) ≤ round (y * 10 ^ n) := by
    rw [round_eq, round_eq]
    refine Int.floor_mono ?_
    have hp : (0 : ℚ) < 10 ^ n := by positivity
    nlinarith
  have h2 : ((round (x * 10 ^ n) : ℤ) : ℚ) ≤ ((round (y * 10 ^ n) : ℤ) : ℚ) :=
    Int.cast_le.mpr h1
  exact div_le_div_of_nonneg_right h2 (by positivity)

theorem abs_roundTo_sub (n : ℕ) (q : ℚ) : |roundTo n q - q| ≤ 1 / (2 * 10 ^ n) := by
  have hp : (0 : ℚ) < 10 ^ n := by positivity
  have key : roundTo n q - q = ((round (q * 10 ^ n) : ℚ) - q * 10 ^ n) / 10 ^ n := by
    rw [roundTo, sub_div, mul_div_cancel_right₀ _ (ne_of_gt hp)]
  calc |roundTo n q - q| = |q * 10 ^ n - (round (q * 10 ^ n) : ℚ)| / 10 ^ n := by
        rw [key, abs_div, abs_of_pos hp, abs_sub_comm]
    _ ≤ (1 / 2) / 10 ^ n :=
        div_le_div_of_nonneg_right (abs_sub_round (q * 10 ^ n)) (le_of_lt hp)
    _ = 1 / (2 * 10 ^ n) := by rw [div_div]

/-! ### Claims C1 and C2: the amount-out formula and the worked example -/

/-- Claim C1: for every input, `Calculator.calculateAmountOut` computes
`amountInWithFee = amountIn * (1 - feePercent/100)` and returns
`amountInWithFee * reserveOut / (reserveIn + amountInWithFee)` rendered at
6 fractional decimal digits, and returns `0` whenever `reserveIn = 0` or
`reserveOut = 0`: the source function agrees with the spec-worded
`amountOutSpec` everywhere. -/
theorem calculateAmountOut_matches_spec
    (amountIn reserveIn reserveOut feePercent : ℚ) :
    calculateAmountOut amountIn reserveIn reserveOut feePercent =
      amountOutSpec amountIn reserveIn reserveOut feePercent ∧
    (reserveIn = 0 ∨ reserveOut = 0 →
      calculateAmountOut amountIn reserveIn reserveOut feePercent = 0) := by
  constructor
  · unfold calculateAmountOut amountOutSpec amountOutVal CALC_PRECISION
    rfl
  · intro h
    unfold calculateAmountOut
    rw [if_pos h]

/-- Witness for C1 at `amountIn = 1`, `reserveIn = 0`, `reserveOut = 5`,
`feePercent = 0`. -/
theorem calculateAmountOut_matches_spec_witness :
    calculateAmountOut 1 0 5 0 = amountOutSpec 1 0 5 0 ∧
      (0 = (0 : ℚ) ∨ (5 : ℚ) = 0 → calculateAmountOut 1 0 5 0 = 0) :=
  calculateAmountOut_matches_spec 1 0 5 0

/-- Shared evaluation: the worked example `amountIn = 10`, `reserveIn = 1000`,
`reserveOut = 2000`, `feePercent = 0.3` gives exactly `19.743161` after
rounding to 6 fractional digits (the exact value is `1994000/100997`). -/
theorem amountOut_example_eval :
    calculateAmountOut 10 1000 2000 (3 / 10) = 19743161 / 1000000 := by
  have harg : amountOutVal 10 1000 2000 (3 / 10) = 1994000 / 100997 := by
    unfold amountOutVal
    norm_num
  have hround : round ((1994000 / 100997 : ℚ) * 10 ^ 6) = 19743161 := by
    rw [round_eq, Int.floor_eq_iff] <;> norm_num
  unfold calculateAmountOut CALC_PRECISION
  rw [if_neg (by norm_num), harg, roundTo, hround]
  norm_num

/-- Counterexample to claim C2 as stated: on the spec's own example inputs
the code's result, compared at 4 decimal places, is `19.7432`, not
`19.9401`. -/
theorem amountOut_example_not_19_9401 :
    roundTo 4 (calculateAmountOut 10 1000 2000 (3 / 10)) = 197432 / 10000 ∧
      (197432 / 10000 : ℚ) ≠ 199401 / 10000 := by
  constructor
  · rw [amountOut_example_eval]
    have hround : round ((19743161 / 1000000 : ℚ) * 10 ^ 4) = 197432 := by
      rw [round_eq, Int.floor_eq_iff] <;> norm_num
    rw [roundTo, hround]
    norm_num
  · norm_num

/-- Claim C2 as amended: for `reserveIn = 1000`, `reserveOut = 2000`,
`amountIn = 10`, `feePercent = 0.3` the amount-out operation returns
`19.743161`, i.e. approximately `19.7432` when compared to 4 decimal
places. -/
theorem amountOut_example_is_19_7432 :
    calculateAmountOut 10 1000 2000 (3 / 10) = 19743161 / 1000000 ∧
      |calculateAmountOut 10 1000 2000 (3 / 10) - 197432 / 10000| ≤ 5 / 100000 := by
  refine ⟨amountOut_example_eval, ?_⟩
  rw [amountOut_example_eval, abs_le]
  constructor <;> norm_num

/-! ### Claim C4: the inverse operation composed with the forward operation -/

theorem exact_inverse (x rIn rOut f : ℚ) (hrIn : rIn ≠ 0) (hrOut : rOut ≠ 0) (hf : f ≠ 0)
    (hden : rIn + x * f ≠ 0) :
    (x * f * rOut / (rIn + x * f)) * rIn /
      ((rOut - x * f * rOut / (rIn + x * f)) * f) = x := by
  have hsub : rOut - x * f * rOut / (rIn + x * f) = rOut * rIn / (rIn + x * f) := by
    field_simp
    ring
  rw [hsub]
  field_simp
  ring

theorem inverse_diff (rIn rOut f y z : ℚ) (hf : f ≠ 0)
    (hy : rOut - y ≠ 0) (hz : rOut - z ≠ 0) :
    z * rIn / ((rOut - z) * f) - y * rIn / ((rOut - y) * f) =
      rIn * rOut * (z - y) / (f * (rOut - z) * (rOut - y)) := by
  field_simp
  ring

/-- Claim C4: composing `calculateAmountIn` with `calculateAmountOut` (same
reserves and fee) returns the original input up to the tolerance induced by
the two 6-digit roundings: the inner rounding error (at most half an ulp,
`1/2000000`) amplified by the inverse formula's sensitivity, plus the outer
rounding's half ulp.  Without the roundings the composition is exactly the
identity (`exact_inverse`). -/
theorem amountIn_amountOut_roundtrip (x rIn rOut fee : ℚ)
    (hrIn : 0 < rIn) (hrOut : 0 < rOut) (hx : 0 < x)
    (hfee0 : 0 ≤ fee) (hfee : fee < 100)
    (hguard : calculateAmountOut x rIn rOut fee < rOut) :
    |calculateAmountIn (calculateAmountOut x rIn rOut fee) rIn rOut fee - x| ≤
      rIn * rOut / ((1 - fee / 100) * (rOut - calculateAmountOut x rIn rOut fee) *
        (rOut - amountOutVal x rIn rOut fee)) * (1 / 2000000) + 1 / 2000000 := by
  have hf : (0 : ℚ) < 1 - fee / 100 := by
    have : fee / 100 < 1 := (div_lt_one (by norm_num)).mpr hfee
    linarith
  have haw : 0 < x * (1 - fee / 100) := mul_pos hx hf
  have hden : 0 < rIn + x * (1 - fee / 100) := by linarith
  have hyval : amountOutVal x rIn rOut fee =
      x * (1 - fee / 100) * rOut / (rIn + x * (1 - fee / 100)) := rfl
  have hy_pos : 0 < amountOutVal x rIn rOut fee := by
    rw [hyval]; positivity
  have hy_lt : amountOutVal x rIn rOut fee < rOut := by
    rw [hyval, div_lt_iff₀ hden]
    nlinarith
  have hAO : calculateAmountOut x rIn rOut fee =
      roundTo 6 (amountOutVal x rIn rOut fee) := by
    unfold calculateAmountOut CALC_PRECISION
    rw [if_neg (by push_neg; exact ⟨ne_of_gt hrIn, ne_of_gt hrOut⟩)]
  have hy'_lt : roundTo 6 (amountOutVal x rIn rOut fee) < rOut := hAO ▸ hguard
  have hy'_close : |roundTo 6 (amountOutVal x rIn rOut fee) -
      amountOutVal x rIn rOut fee| ≤ 1 / 2000000 := by
    have h := abs_roundTo_sub 6 (amountOutVal x rIn rOut fee)
    norm_num at h
    exact h
  have hsubpos : 0 < rOut - amountOutVal x rIn rOut fee := by linarith
  have hsubpos' : 0 < rOut - roundTo 6 (amountOutVal x rIn rOut fee) := by linarith
  have hAI : calculateAmountIn (roundTo 6 (amountOutVal x rIn rOut fee)) rIn rOut fee =
      roundTo 6 (roundTo 6 (amountOutVal x rIn rOut fee) * rIn /
        ((rOut - roundTo 6 (amountOutVal x rIn rOut fee)) * (1 - fee / 100))) := by
    unfold calculateAmountIn CALC_PRECISION
    rw [if_neg]
    push_neg
    exact ⟨ne_of_gt hrIn, ne_of_gt hrOut, hy'_lt⟩
  have hgy : amountOutVal x rIn rOut fee * rIn /
      ((rOut - amountOutVal x rIn rOut fee) * (1 - fee / 100)) = x := by
    rw [hyval]
    exact exact_inverse x rIn rOut (1 - fee / 100)
      (ne_of_gt hrIn) (ne_of_gt hrOut) (ne_of_gt hf) (ne_of_gt hden)
  have hdiff : roundTo 6 (amountOutVal x rIn rOut fee) * rIn /
      ((rOut - roundTo 6 (amountOutVal x rIn rOut fee)) * (1 - fee / 100)) - x =
      rIn * rOut * (roundTo 6 (amountOutVal x rIn rOut fee) - amountOutVal x rIn rOut fee) /
        ((1 - fee / 100) * (rOut - roundTo 6 (amountOutVal x rIn rOut fee)) *
          (rOut - amountOutVal x rIn rOut fee)) := by
    have h := inverse_diff rIn rOut (1 - fee / 100) (amountOutVal x rIn rOut fee)
      (roundTo 6 (amountOutVal x rIn rOut fee)) (ne_of_gt hf)
      (ne_of_gt hsubpos) (ne_of_gt hsubpos')
    rw [hgy] at h
    exact h
  have hDpos : 0 < (1 - fee / 100) * (rOut - roundTo 6 (amountOutVal x rIn rOut fee)) *
      (rOut - amountOutVal x rIn rOut fee) := by positivity
  have hbound1 : |roundTo 6 (amountOutVal x rIn rOut fee) * rIn /
      ((rOut - roundTo 6 (amountOutVal x rIn rOut fee)) * (1 - fee / 100)) - x| ≤
      rIn * rOut / ((1 - fee / 100) * (rOut - roundTo 6 (amountOutVal x rIn rOut fee)) *
        (rOut - amountOutVal x rIn rOut fee)) * (1 / 2000000) := by
    rw [hdiff, abs_div, abs_of_pos hDpos, div_mul_eq_mul_div]
    apply div_le_div_of_nonneg_right ?_ hDpos.le
    rw [abs_mul, abs_of_pos (mul_pos hrIn hrOut)]
    exact mul_le_mul_of_nonneg_left hy'_close (by positivity)
  have htri := abs_sub_le
    (roundTo 6 (roundTo 6 (amountOutVal x rIn rOut fee) * rIn /
      ((rOut - roundTo 6 (amountOutVal x rIn rOut fee)) * (1 - fee / 100))))
    (roundTo 6 (amountOutVal x rIn rOut fee) * rIn /
      ((rOut - roundTo 6 (amountOutVal x rIn rOut fee)) * (1 - fee / 100)))
    x
  have hround2 : |roundTo 6 (roundTo 6 (amountOutVal x rIn rOut fee) * rIn /
      ((rOut - roundTo 6 (amountOutVal x rIn rOut fee)) * (1 - fee / 100))) -
      roundTo 6 (amountOutVal x rIn rOut fee) * rIn /
      ((rOut - roundTo 6 (amountOutVal x rIn rOut fee)) * (1 - fee / 100))| ≤ 1 / 2000000 := by
    have h := abs_roundTo_sub 6 (roundTo 6 (amountOutVal x rIn rOut fee) * rIn /
      ((rOut - roundTo 6 (amountOutVal x rIn rOut fee)) * (1 - fee / 100)))
    norm_num at h
    exact h
  rw [hAO, hAI]
  linarith

/-- Witness for C4 on the spec's worked example
(`x = 10`, reserves `1000/2000`, fee `0.3`). -/
theorem amountIn_amountOut_roundtrip_witness :
    |calculateAmountIn (calculateAmountOut 10 1000 2000 (3 / 10)) 1000 2000 (3 / 10) - 10| ≤
      1000 * 2000 / ((1 - (3 / 10) / 100) * (2000 - calculateAmountOut 10 1000 2000 (3 / 10)) *
        (2000 - amountOutVal 10 1000 2000 (3 / 10))) * (1 / 2000000) + 1 / 2000000 :=
  amountIn_amountOut_roundtrip 10 1000 2000 (3 / 10)
    (by norm_num) (by norm_num) (by norm_num) (by norm_num) (by norm_num)
    (by rw [amountOut_example_eval]; norm_num)

/-! ### Claim C5: price impact is nonnegative, vanishing and monotone -/

/-- For positive reserves and a positive trade size the price-impact formula
collapses to `a / (reserveIn + a) * 100` rounded to two decimals (the
constant-product simulation and the pre/post price comparison cancel). -/
theorem priceImpact_eval (rIn rOut a : ℚ) (hin : 0 < rIn) (hout : 0 < rOut) (ha : 0 < a) :
    calculatePriceImpact rIn rOut a = roundTo 2 (a / (rIn + a) * 100) := by
  unfold calculatePriceImpact
  rw [if_neg (by push_neg; exact ⟨ne_of_gt hin, ne_of_gt hout⟩)]
  have hden : (0 : ℚ) < rIn + a := by linarith
  have harg : (rOut / rIn - (rOut - rIn * rOut / (rIn + a)) / a) / (rOut / rIn) =
      a / (rIn + a) := by
    field_simp
    ring
  show roundTo 2 (|(rOut / rIn - (rOut - rIn * rOut / (rIn + a)) / a) / (rOut / rIn)| * 100) =
    roundTo 2 (a / (rIn + a) * 100)
  rw [harg, abs_of_nonneg (by positivity)]

theorem roundTo2_small_eq_zero {t : ℚ} (h0 : 0 ≤ t) (h : t < 1 / 200) : roundTo 2 t = 0 := by
  unfold roundTo
  have hr : round (t * 10 ^ 2) = 0 := by
    rw [round_eq, Int.floor_eq_zero_iff]
    constructor
    · norm_num; linarith
    · norm_num; linarith
  rw [hr]
  norm_num

/-- Claim C5: for positive reserves, `Calculator.calculatePriceImpact` is
nonnegative for every positive `amountIn`, monotonically increasing in
`amountIn`, and tends to `0` as `amountIn` tends to `0` (stated ε-δ; below
`δ = reserveIn/20000` the rounded two-decimal impact is exactly `0`).
At `amountIn = 0` the JavaScript source divides `0/0` and yields `NaN`, so
the quantifiers range over positive `amountIn`. -/
theorem priceImpact_props (rIn rOut : ℚ) (hin : 0 < rIn) (hout : 0 < rOut) :
    (∀ a, 0 < a → 0 ≤ calculatePriceImpact rIn rOut a) ∧
    (∀ a b, 0 < a → a ≤ b → calculatePriceImpact rIn rOut a ≤ calculatePriceImpact rIn rOut b) ∧
    (∀ ε, 0 < ε → ∃ δ, 0 < δ ∧ ∀ a, 0 < a → a < δ → calculatePriceImpact rIn rOut a < ε) := by
  refine ⟨?_, ?_, ?_⟩
  · intro a ha
    rw [priceImpact_eval rIn rOut a hin hout ha]
    apply roundTo_nonneg
    have : (0:ℚ) < rIn + a := by linarith
    positivity
  · intro a b ha hab
    have hb : 0 < b := lt_of_lt_of_le ha hab
    rw [priceImpact_eval rIn rOut a hin hout ha, priceImpact_eval rIn rOut b hin hout hb]
    apply roundTo_mono
    have hda : (0:ℚ) < rIn + a := by linarith
    have hdb : (0:ℚ) < rIn + b := by linarith
    have : a / (rIn + a) ≤ b / (rIn + b) := by
      rw [div_le_div_iff₀ hda hdb]
      nlinarith
    nlinarith
  · intro ε hε
    refine ⟨rIn / 20000, by positivity, ?_⟩
    intro a ha had
    rw [priceImpact_eval rIn rOut a hin hout ha]
    have hda : (0:ℚ) < rIn + a := by linarith
    have h20 : a * 20000 < rIn := by
      rw [lt_div_iff₀ (by norm_num)] at had
      exact had
    have hsmall : a / (rIn + a) * 100 < 1 / 200 := by
      rw [div_mul_eq_mul_div, div_lt_div_iff₀ hda (by norm_num)]
      linarith
    rw [roundTo2_small_eq_zero (by positivity) hsmall]
    exact hε

/-- Witness for C5 at reserves `1000/2000`. -/
theorem priceImpact_props_witness :
    (∀ a, 0 < a → 0 ≤ calculatePriceImpact 1000 2000 a) ∧
    (∀ a b, 0 < a → a ≤ b →
      calculatePriceImpact 1000 2000 a ≤ calculatePriceImpact 1000 2000 b) ∧
    (∀ ε, 0 < ε → ∃ δ, 0 < δ ∧ ∀ a, 0 < a → a < δ →
      calculatePriceImpact 1000 2000 a < ε) :=
  priceImpact_props 1000 2000 (by norm_num) (by norm_num)

/-- Counterexample to claim C3 as stated: at the claim's own boundary
example — a Long position with entry price 100 and current price 20 —
`checkLiquidationConditions` returns `false`, not `true`:
`position.positionType === 0` strict-compares a BigInt with a Number
(always false), and the pnl arithmetic mixes a BigInt with the Number
literal `100` and throws, which the `catch` turns into the verdict
`false`. -/
theorem liquidation_check_false_at_example :
    checkLiquidationConditions (some 20) ⟨0, 100, 0, true⟩ = false := by
  decide

/-- Claim C3 as amended: the claimed loss-percent rule holds for the float
path — the `shouldLiquidate` flag of `KeeperModule.formatPositionData`
(src/modules/KeeperModule.js lines 898-932, consumed by
`TradingModule.getLiquidatablePositions`), which converts `positionType`
through `Number()` and computes the pnl over parsed floats.  For a Long
position with positive entry price that flag agrees everywhere with
"loss percent ≥ 80" for the spec's loss percent
(`(entry - current)/entry * 100` when `current < entry`, else `0`); in
particular entry 100/current 20 gives loss 80 and verdict `true`, and
entry 100/current 21 gives loss 79 and verdict `false`.
`checkLiquidationConditions` itself, by contrast, returns `false` for
every position and every price read. -/
theorem liquidation_long_matches_spec (entry current : ℚ) (he : 0 < entry) :
    (shouldLiquidateFmt true entry current =
      decide ((80 : ℚ) ≤ lossPercentSpecLong entry current)) ∧
    lossPercentSpecLong 100 20 = 80 ∧
    shouldLiquidateFmt true 100 20 = true ∧
    lossPercentSpecLong 100 21 = 79 ∧
    shouldLiquidateFmt true 100 21 = false ∧
    (∀ (priceResult : Option ℤ) (pos : Position),
      checkLiquidationConditions priceResult pos = false) := by
  refine ⟨?_, by norm_num [lossPercentSpecLong], by norm_num [shouldLiquidateFmt],
    by norm_num [lossPercentSpecLong], by norm_num [shouldLiquidateFmt], ?_⟩
  · show decide ((current - entry) / entry * 100 ≤ -80) =
      decide ((80 : ℚ) ≤ lossPercentSpecLong entry current)
    rw [decide_eq_decide]
    unfold lossPercentSpecLong
    by_cases hlt : current < entry
    · rw [if_pos hlt]
      have hAB : (entry - current) / entry * 100 = -((current - entry) / entry * 100) := by
        ring
      rw [hAB]
      constructor
      · intro h
        linarith
      · intro h
        linarith
    · rw [if_neg hlt]
      have hge : 0 ≤ current - entry := by linarith [not_lt.mp hlt]
      have hA : 0 ≤ (current - entry) / entry * 100 :=
        mul_nonneg (div_nonneg hge he.le) (by norm_num)
      constructor
      · intro h
        linarith
      · intro h
        linarith
  · intro priceResult pos
    cases priceResult with
    | none => rfl
    | some p =>
      by_cases h : pos.entryPrice ≤ p
      · simp [checkLiquidationConditions, positionTypeIsLongJs, pnlPercentCalc, h]
      · simp [checkLiquidationConditions, positionTypeIsLongJs, pnlPercentCalc, h]

/-- Witness for C3 at entry 100, current 20. -/
theorem liquidation_long_matches_spec_witness :
    (shouldLiquidateFmt true 100 20 =
      decide ((80 : ℚ) ≤ lossPercentSpecLong 100 20)) ∧
    lossPercentSpecLong 100 20 = 80 ∧
    shouldLiquidateFmt true 100 20 = true ∧
    lossPercentSpecLong 100 21 = 79 ∧
    shouldLiquidateFmt true 100 21 = false ∧
    (∀ (priceResult : Option ℤ) (pos : Position),
      checkLiquidationConditions priceResult pos = false) :=
  liquidation_long_matches_spec 100 20 (by norm_num)

/-- Claim C9 (code behaviour at the failing input): a position with
`entryPrice = 0` does NOT make the liquidation check signal an error to its
caller — `checkLiquidationConditions` silently returns the verdict `false`.
With current price 100 the (always-taken, since `isLong` is never true)
branch reaches the BigInt-times-Number multiplication, which throws a
`TypeError` that the `catch` swallows into `false`; likewise with current
price 0.  `pnlPercentCalc true 0 0 = none` records that the Long arm would
throw the same way before its division by the zero entry price. -/
theorem liquidation_entry_zero_silent :
    checkLiquidationConditions (some 100) ⟨0, 0, 0, true⟩ = false ∧
    checkLiquidationConditions (some 0) ⟨0, 0, 0, true⟩ = false ∧
    pnlPercentCalc true 0 0 = none := by
  decide


/-! ### Scan and loop lemmas -/

theorem mem_range'_iff {m c i : ℕ} : i ∈ List.range' m c ↔ m ≤ i ∧ i < m + c := by
  rw [List.mem_range']
  constructor
  · rintro ⟨j, hj, rfl⟩
    omega
  · rintro ⟨h1, h2⟩
    exact ⟨i - m, by omega, by omega⟩

theorem findLiquidatableLoop_cons_fst (L : Ledger) (id : ℕ) (rest acc : List ℕ)
    (hlen : acc.length < 10) :
    (findLiquidatableLoop L (id :: rest) acc).1 =
      (findLiquidatableLoop L rest (if liqPred L id then acc ++ [id] else acc)).1 := by
  simp only [findLiquidatableLoop]
  rw [if_pos hlen]
  cases hpos : L.getPosition id with
  | none => simp [liqPred, hpos]
  | some pos =>
    by_cases hopen : pos.isOpen = true
    · by_cases hchk : checkLiquidationConditions (L.getPrice pos.token) pos = true
      · simp [liqPred, hpos, hopen, hchk]
      · simp [liqPred, hpos, hopen, hchk]
    · simp [liqPred, hpos, hopen]

theorem findLiquidatableLoop_result (L : Ledger) (ids : List ℕ) (acc : List ℕ)
    (h : acc.length ≤ 10) :
    (findLiquidatableLoop L ids acc).1 =
      acc ++ (ids.filter (liqPred L)).take (10 - acc.length) := by
  induction ids generalizing acc with
  | nil => simp [findLiquidatableLoop]
  | cons id rest ih =>
    by_cases hlen : acc.length < 10
    · rw [findLiquidatableLoop_cons_fst L id rest acc hlen, List.filter_cons]
      by_cases hlq : liqPred L id = true
      · rw [if_pos hlq, if_pos hlq]
        rw [ih (acc ++ [id]) (by simp; omega)]
        have hs : 10 - acc.length = (10 - (acc ++ [id]).length) + 1 := by simp; omega
        rw [hs, List.take_succ_cons, List.append_assoc, List.singleton_append]
      · rw [if_neg hlq, if_neg hlq, ih acc h]
    · have h0 : 10 - acc.length = 0 := by omega
      simp only [findLiquidatableLoop]
      rw [if_neg hlen]
      simp [h0]

/-! ### Claim C10: the liquidation scan is capped at ten positions -/

/-- Claim C10: one invocation of `KeeperModule.findLiquidatablePositions`
returns at most 10 position ids, and its result is exactly the first 10
liquidatable ids of `1 .. nextPositionId - 1` in id order — liquidatable
positions beyond the tenth are not reported in that scan. -/
theorem findLiquidatable_capped (L : Ledger) (n : ℕ)
    (hn : L.nextPositionId = some n) :
    ((findLiquidatablePositions L).1).length ≤ 10 ∧
    (findLiquidatablePositions L).1 =
      ((List.range' 1 (n - 1)).filter (liqPred L)).take 10 := by
  have hchar : (findLiquidatablePositions L).1 =
      ((List.range' 1 (n - 1)).filter (liqPred L)).take 10 := by
    unfold findLiquidatablePositions
    rw [hn]
    simpa using findLiquidatableLoop_result L (List.range' 1 (n - 1)) [] (by simp)
  refine ⟨?_, hchar⟩
  rw [hchar]
  exact List.length_take_le _ _

/-- Witness for C10 on a ledger with fifteen liquidatable positions. -/
theorem findLiquidatable_capped_witness :
    ((findLiquidatablePositions exLedgerMany).1).length ≤ 10 ∧
    (findLiquidatablePositions exLedgerMany).1 =
      ((List.range' 1 (16 - 1)).filter (liqPred exLedgerMany)).take 10 :=
  findLiquidatable_capped exLedgerMany 16 rfl

/-! ### Claim C7: a failed lookup does not abort the scan -/

/-- Claim C7: during `getKeeperOpportunities`, a failed (`safeCall` → null)
lookup for any id only skips that id — every other id whose lookup
succeeds, whose order is unexecuted and whose `shouldExecuteOrder` read is
`true` still contributes its opportunity, for an arbitrary ledger (other
ids may fail arbitrarily).  On the concrete ten-order ledger whose lookup
for id 5 throws, the scan returns the opportunities of ids
{1, 2, 3, 4, 6, 7, 8, 9, 10}. -/
theorem scan_skips_failed_lookup (L : Ledger) (n orderId : ℕ) (o : Order)
    (hn : L.nextOrderId = some n) (h1 : 1 ≤ orderId) (h2 : orderId < n)
    (ho : L.getOrder orderId = some o) (hexec : o.executed = false)
    (hshould : L.shouldExecuteOrder orderId = some true) :
    (⟨OpportunityType.orderExecution, orderId, 300000⟩ : Opportunity) ∈
      (getKeeperOpportunities L).1 ∧
    exLedgerScan.getOrder 5 = none ∧
    (getKeeperOpportunities exLedgerScan).1.map Opportunity.id =
      [1, 2, 3, 4, 6, 7, 8, 9, 10] := by
  refine ⟨?_, by decide, by decide⟩
  simp only [getKeeperOpportunities, hn]
  apply List.mem_append_left
  rw [List.mem_filterMap]
  refine ⟨orderOpportunityStep L orderId, ?_, ?_⟩
  · apply List.mem_map_of_mem
    rw [mem_range'_iff]
    omega
  · simp [orderOpportunityStep, ho, hexec, hshould]

/-- Witness for C7: id 3 of the ten-order ledger with the failing id 5. -/
theorem scan_skips_failed_lookup_witness :
    (⟨OpportunityType.orderExecution, 3, 300000⟩ : Opportunity) ∈
      (getKeeperOpportunities exLedgerScan).1 ∧
    exLedgerScan.getOrder 5 = none ∧
    (getKeeperOpportunities exLedgerScan).1.map Opportunity.id =
      [1, 2, 3, 4, 6, 7, 8, 9, 10] :=
  scan_skips_failed_lookup exLedgerScan 11 3 ⟨false⟩ rfl (by norm_num) (by norm_num)
    (by decide) rfl rfl

/-! ### Claim C6: a paused tick issues no scanning or execution calls -/

theorem processOrderId_writes (L : Ledger) (orderId : ℕ) (s : KeeperStats) (c : KCall)
    (hc : c ∈ (processOrderId L orderId s).2.2) (hw : c.isWrite = true) :
    c = KCall.writeExecuteOrder orderId := by
  unfold processOrderId at hc
  cases ho : L.getOrder orderId with
  | none =>
    simp only [ho] at hc
    simp at hc
    subst hc
    simp [KCall.isWrite] at hw
  | some o =>
    simp only [ho] at hc
    by_cases hex : o.executed = true
    · rw [if_pos hex] at hc
      simp at hc
      subst hc
      simp [KCall.isWrite] at hw
    · rw [if_neg hex] at hc
      cases hse : L.shouldExecuteOrder orderId with
      | none =>
        simp only [hse] at hc
        simp at hc
        rcases hc with rfl | rfl
        · simp [KCall.isWrite] at hw
        · simp [KCall.isWrite] at hw
      | some b =>
        simp only [hse] at hc
        cases b with
        | false =>
          simp at hc
          rcases hc with rfl | rfl
          · simp [KCall.isWrite] at hw
          · simp [KCall.isWrite] at hw
        | true =>
          cases hres : L.executeOrderResult orderId with
          | some u =>
            simp only [hres] at hc
            simp at hc
            rcases hc with rfl | rfl | rfl
            · simp [KCall.isWrite] at hw
            · simp [KCall.isWrite] at hw
            · rfl
          | none =>
            simp only [hres] at hc
            simp at hc
            rcases hc with rfl | rfl | rfl
            · simp [KCall.isWrite] at hw
            · simp [KCall.isWrite] at hw
            · rfl

theorem processPositionId_writes (L : Ledger) (positionId : ℕ) (s : KeeperStats) (c : KCall)
    (hc : c ∈ (processPositionId L positionId s).2.2) (hw : c.isWrite = true) :
    c = KCall.writeLiquidatePosition positionId := by
  unfold processPositionId at hc
  cases hp : L.getPosition positionId with
  | none =>
    simp only [hp] at hc
    simp at hc
    subst hc
    simp [KCall.isWrite] at hw
  | some pos =>
    simp only [hp] at hc
    by_cases hop : pos.isOpen = true
    · simp only [hop, Bool.not_true, Bool.false_eq_true, if_false] at hc
      by_cases hchk : checkLiquidationConditions (L.getPrice pos.token) pos = true
      · rw [if_pos hchk] at hc
        cases hres : L.liquidatePositionResult positionId with
        | some u =>
          simp only [hres] at hc
          simp at hc
          rcases hc with rfl | rfl | rfl
          · simp [KCall.isWrite] at hw
          · simp [KCall.isWrite] at hw
          · rfl
        | none =>
          simp only [hres] at hc
          simp at hc
          rcases hc with rfl | rfl | rfl
          · simp [KCall.isWrite] at hw
          · simp [KCall.isWrite] at hw
          · rfl
      · rw [if_neg hchk] at hc
        simp at hc
        rcases hc with rfl | rfl
        · simp [KCall.isWrite] at hw
        · simp [KCall.isWrite] at hw
    · have hopf : pos.isOpen = false := by simpa using hop
      simp only [hopf, Bool.not_false, if_true] at hc
      simp at hc
      subst hc
      simp [KCall.isWrite] at hw

/-- Claim C8: an execution attempt on an order already marked
`executed = true` is disposed of as `alreadyDone` — a successful no-op
with the stats (in particular `ordersExecuted`) unchanged, no error
counted, and only the lookup read issued; moreover no run of
`executeReadyOrders` ever issues an `executeOrder` write for such an id,
and no run of the liquidation loop ever issues a `liquidatePosition` write
for a position observed with `isOpen = false`. -/
theorem idempotent_execution (L : Ledger) (s : KeeperStats) (orderId : ℕ) (o : Order)
    (ho : L.getOrder orderId = some o) (hexec : o.executed = true) :
    processOrderId L orderId s = (OrderOutcome.alreadyDone, s, [KCall.readOrder orderId]) ∧
    (∀ ids s0, KCall.writeExecuteOrder orderId ∉ (executeReadyOrdersLoop L ids s0).2) ∧
    (∀ s0, KCall.writeExecuteOrder orderId ∉ (executeReadyOrders L s0).2) ∧
    (∀ pid p, L.getPosition pid = some p → p.isOpen = false →
      ∀ ids s0, KCall.writeLiquidatePosition pid ∉ (liquidatePositionsLoop L ids s0).2) := by
  have hstep : ∀ s0, processOrderId L orderId s0 =
      (OrderOutcome.alreadyDone, s0, [KCall.readOrder orderId]) := by
    intro s0
    unfold processOrderId
    simp only [ho]
    rw [if_pos hexec]
  have hloop : ∀ ids s0, KCall.writeExecuteOrder orderId ∉
      (executeReadyOrdersLoop L ids s0).2 := by
    intro ids
    induction ids with
    | nil => intro s0 h; simp [executeReadyOrdersLoop] at h
    | cons id rest ih =>
      intro s0 h
      simp only [executeReadyOrdersLoop, List.mem_append] at h
      rcases h with h | h
      · by_cases hid : id = orderId
        · subst hid
          rw [hstep s0] at h
          simp at h
        · have heq := processOrderId_writes L id s0 _ h rfl
          simp at heq
          exact hid heq.symm
      · exact ih _ h
  refine ⟨hstep s, hloop, ?_, ?_⟩
  · intro s0 h
    cases hn : L.nextOrderId with
    | none =>
      simp [executeReadyOrders, hn] at h
    | some n =>
      simp only [executeReadyOrders, hn, List.mem_cons] at h
      rcases h with h | h
      · simp at h
      · exact hloop _ _ h
  · intro pid p hp hopen ids
    induction ids with
    | nil => intro s0 h; simp [liquidatePositionsLoop] at h
    | cons id rest ih =>
      intro s0 h
      simp only [liquidatePositionsLoop, List.mem_append] at h
      rcases h with h | h
      · by_cases hid : id = pid
        · subst hid
          unfold processPositionId at h
          simp only [hp] at h
          simp [hopen] at h
        · have heq := processPositionId_writes L id s0 _ h rfl
          simp at heq
          exact hid heq.symm
      · exact ih _ h

/-- Witness for C8 on the ledger whose order 1 is already executed and
whose position 1 is closed. -/
theorem idempotent_execution_witness :
    processOrderId exLedgerDone 1 ⟨0, 0, 0⟩ =
      (OrderOutcome.alreadyDone, ⟨0, 0, 0⟩, [KCall.readOrder 1]) ∧
    (∀ ids s0, KCall.writeExecuteOrder 1 ∉ (executeReadyOrdersLoop exLedgerDone ids s0).2) ∧
    (∀ s0, KCall.writeExecuteOrder 1 ∉ (executeReadyOrders exLedgerDone s0).2) ∧
    (∀ pid p, exLedgerDone.getPosition pid = some p → p.isOpen = false →
      ∀ ids s0, KCall.writeLiquidatePosition pid ∉
        (liquidatePositionsLoop exLedgerDone ids s0).2) :=
  idempotent_execution exLedgerDone ⟨0, 0, 0⟩ 1 ⟨true⟩ rfl rfl

end LinkoraDex
